import Mathlib

/-!
Shallow embedding of the ecc-cpp core: the arbitrary-precision integer
engine declared in integer.h and the prime-field layer of FieldElement.cpp.

The integer class stores a sign and a canonical digit magnitude; the design
text (sections 4.1 to 4.3) gives exact integer semantics for construction,
comparison, addition, subtraction and multiplication, so integer values are
embedded as Int and those operations as the corresponding exact Int
operations.  The bodies of the non-template integer member functions
(notably divmod, the percent operator and the bitwise operators) are not
among the sources, only their declarations in integer.h; the definitions
below marked Modelled from the spec embed them from the design text.  The
template functions pow (two- and three-argument) and the iterator
constructor are present in integer.h with full bodies, and the whole of
FieldElement.cpp is present; those are embedded directly from the code.
-/

namespace Ecc

/-- Error kinds of the design (section 7), standing for the exceptions
thrown by the C++ code: OutOfRange for field-element construction with a
value outside the field range, IncompatibleField for binary field
operations on differing primes, DivisionByZero for a zero divisor in the
integer engine, DomainError for an invalid base or a zero modulus. -/
inductive Err where
  | outOfRange
  | incompatibleField
  | divisionByZero
  | domainError
  deriving DecidableEq

/-- Modelled from the spec: the remainder computed by integer divmod
(section 4.4) and returned by the percent operator; integer.cpp is not
among the sources.  Magnitude division ignores signs, so the magnitude of
the remainder is the Nat remainder of the magnitudes, and the remainder
sign follows the sign of the dividend (truncating division).  Divmod fails
with DivisionByZero when the divisor magnitude is zero; every use below
has a divisor whose magnitude the surrounding code has already checked or
established to be nonzero, so the function is total here. -/
def integer.mod (a m : Int) : Int :=
  if 0 ≤ a then ((a.natAbs % m.natAbs : Nat) : Int)
  else -((a.natAbs % m.natAbs : Nat) : Int)

/-- Modelled from the spec: bitwise OR of the integer engine (section 4.5
operates on the two of complement patterns implied by sign and magnitude);
integer.cpp is not among the sources.  Every use below has nonnegative
operands, where OR is the Nat bitwise or of the magnitudes. -/
def integer.or (a b : Int) : Int := ((a.toNat ||| b.toNat : Nat) : Int)

/-- The iterator-based constructor of integer (integer.h lines 133 to 142):
throws for base below 2, otherwise starts from zero and folds each digit d
with the step taking value to the bitwise or of value times base with d;
all inputs are treated as positive values, so digits are embedded as Nat. -/
def integer.fromDigits (start : List Nat) (base : Int) : Except Err Int :=
  if base < 2 then .error .domainError
  else .ok (start.foldl (fun acc (d : Nat) => integer.or (acc * base) (d : Int)) 0)

/-- The square-and-multiply loop of the two-argument pow template
(integer.h lines 759 to 779), on the nonnegative exponent: while the
exponent is nonzero, multiply the result by the value when the low bit is
set, then halve the exponent and square the value. -/
def integer.powLoop (value : Int) (exp : Nat) (result : Int) : Int :=
  if h : exp = 0 then result
  else integer.powLoop (value * value) (exp / 2)
    (if exp % 2 = 1 then result * value else result)
termination_by exp
decreasing_by exact Nat.div_lt_self (Nat.pos_of_ne_zero h) one_lt_two

/-- The two-argument pow template (integer.h lines 759 to 779): a negative
exponent yields 0, otherwise the square-and-multiply loop starting from
result 1. -/
def integer.pow (value exp : Int) : Int :=
  if exp < 0 then 0 else integer.powLoop value exp.toNat 1

/-- The square-and-multiply loop of the three-argument pow template
(integer.h lines 781 to 809), with every intermediate result and base
reduced by the engine mod. -/
def integer.powModLoop (base : Int) (exp : Nat) (m result : Int) : Int :=
  if h : exp = 0 then result
  else integer.powModLoop (integer.mod (base * base) m) (exp / 2) m
    (if exp % 2 = 1 then integer.mod (result * base) m else result)
termination_by exp
decreasing_by exact Nat.div_lt_self (Nat.pos_of_ne_zero h) one_lt_two

/-- The three-argument pow template (integer.h lines 781 to 809): checks
the modulus first and throws DomainError when it is zero, returns 0 for a
negative exponent, and otherwise runs the reducing square-and-multiply
loop starting from result 1. -/
def integer.powmod (base exponent modulus : Int) : Except Err Int :=
  if modulus = 0 then .error .domainError
  else if exponent < 0 then .ok 0
  else .ok (integer.powModLoop base exponent.toNat modulus 1)

/-- A field element: a value and a modulus, both engine integers
(FieldElement.h). -/
structure FieldElement where
  num : Int
  prime : Int
  deriving DecidableEq

/-- The FieldElement constructor (FieldElement.cpp lines 7 to 13): throws
OutOfRange when num is at least prime or negative, otherwise stores num
and prime unchanged. -/
def FieldElement.make (num prime : Int) : Except Err FieldElement :=
  if prime ≤ num ∨ num < 0 then .error .outOfRange else .ok ⟨num, prime⟩

/-- Field addition (FieldElement.cpp lines 15 to 23): rejects differing
primes, otherwise reduces the sum by the engine mod and constructs the
result element. -/
def FieldElement.add (a other : FieldElement) : Except Err FieldElement :=
  if a.prime ≠ other.prime then .error .incompatibleField
  else FieldElement.make (integer.mod (a.num + other.num) a.prime) a.prime

/-- Field subtraction (FieldElement.cpp lines 25 to 33). -/
def FieldElement.subtract (a other : FieldElement) : Except Err FieldElement :=
  if a.prime ≠ other.prime then .error .incompatibleField
  else FieldElement.make (integer.mod (a.num - other.num) a.prime) a.prime

/-- Field multiplication (FieldElement.cpp lines 35 to 43). -/
def FieldElement.multiply (a other : FieldElement) : Except Err FieldElement :=
  if a.prime ≠ other.prime then .error .incompatibleField
  else FieldElement.make (integer.mod (a.num * other.num) a.prime) a.prime

/-- Field division (FieldElement.cpp lines 51 to 59): rejects differing
primes, otherwise multiplies num by pow of the other value to the exponent
prime minus 2 reduced by prime, reduces by prime again and constructs. -/
def FieldElement.divide (a other : FieldElement) : Except Err FieldElement :=
  if a.prime ≠ other.prime then .error .incompatibleField
  else FieldElement.make
    (integer.mod (a.num * integer.mod (integer.pow other.num (a.prime - 2)) a.prime) a.prime)
    a.prime

/-- Field exponentiation (FieldElement.cpp lines 61 to 65): reduces the
exponent by prime minus 1 with the engine mod, raises num to it with the
two-argument pow, reduces by prime and constructs. -/
def FieldElement.power (a : FieldElement) (exponent : Int) : Except Err FieldElement :=
  FieldElement.make
    (integer.mod (integer.pow a.num (integer.mod exponent (a.prime - 1))) a.prime)
    a.prime

/-- Field-element equality (FieldElement.cpp lines 67 to 69): the source
compares num of the left side with num of the right side twice and never
looks at prime. -/
def FieldElement.eq (lhs rhs : FieldElement) : Bool :=
  lhs.num == rhs.num && lhs.num == rhs.num

/-! Basic facts about the engine mod. -/

theorem integer.mod_natAbs (a m : Int) :
    (integer.mod a m).natAbs = a.natAbs % m.natAbs := by
  unfold integer.mod
  split
  · exact Int.natAbs_ofNat _
  · rw [Int.natAbs_neg]
    exact Int.natAbs_ofNat _

theorem integer.mod_nonneg_of_nonneg {a : Int} (m : Int) (ha : 0 ≤ a) :
    0 ≤ integer.mod a m := by
  unfold integer.mod
  rw [if_pos ha]
  exact Int.natCast_nonneg _

theorem integer.mod_nonpos_of_nonpos {a : Int} (m : Int) (ha : a ≤ 0) :
    integer.mod a m ≤ 0 := by
  unfold integer.mod
  split
  · have hz : a = 0 := le_antisymm ha (by assumption)
    subst hz
    simp
  · exact neg_nonpos.mpr (Int.natCast_nonneg _)

theorem integer.mod_eq_emod {a m : Int} (ha : 0 ≤ a) (hm : 0 < m) :
    integer.mod a m = a % m := by
  unfold integer.mod
  rw [if_pos ha]
  push_cast
  rw [abs_of_nonneg ha, abs_of_nonneg hm.le]

theorem integer.mod_mem {a m : Int} (ha : 0 ≤ a) (hm : 0 < m) :
    0 ≤ integer.mod a m ∧ integer.mod a m < m := by
  rw [integer.mod_eq_emod ha hm]
  exact ⟨Int.emod_nonneg a hm.ne.symm, Int.emod_lt_of_pos a hm⟩

theorem FieldElement.make_ok {v p : Int} (h0 : 0 ≤ v) (h1 : v < p) :
    FieldElement.make v p = .ok ⟨v, p⟩ := by
  unfold FieldElement.make
  have hc : ¬(p ≤ v ∨ v < 0) := by omega
  rw [if_neg hc]

/-- C8: FieldElement construction with value and prime fails with
OutOfRange exactly when the value is negative or at least the prime, and
otherwise succeeds storing value and prime unchanged. -/
theorem construction_spec (v p : Int) :
    (FieldElement.make v p = .error .outOfRange ↔ v < 0 ∨ p ≤ v) ∧
    (0 ≤ v → v < p → FieldElement.make v p = .ok ⟨v, p⟩) := by
  refine ⟨?_, fun h0 h1 => FieldElement.make_ok h0 h1⟩
  unfold FieldElement.make
  by_cases h : p ≤ v ∨ v < 0
  · rw [if_pos h]
    exact iff_of_true rfl (by omega)
  · rw [if_neg h]
    exact iff_of_false (by simp) (by omega)

/-- Witness for C8 at value 3 and prime 7. -/
theorem construction_spec_witness : FieldElement.make 3 7 = .ok ⟨3, 7⟩ :=
  (construction_spec 3 7).2 (by decide) (by decide)

/-- C9: each of the four binary field operations fails with
IncompatibleField when the two stored primes differ. -/
theorem ops_incompatible (a b : FieldElement) (h : a.prime ≠ b.prime) :
    a.add b = .error .incompatibleField ∧
    a.subtract b = .error .incompatibleField ∧
    a.multiply b = .error .incompatibleField ∧
    a.divide b = .error .incompatibleField := by
  refine ⟨?_, ?_, ?_, ?_⟩ <;>
    simp [FieldElement.add, FieldElement.subtract, FieldElement.multiply,
      FieldElement.divide, h]

/-- Witness for C9: adding the element 1 mod 7 to the element 1 mod 11
fails with IncompatibleField, and so do the other three operations. -/
theorem ops_incompatible_witness :
    FieldElement.add ⟨1, 7⟩ ⟨1, 11⟩ = .error .incompatibleField ∧
    FieldElement.subtract ⟨1, 7⟩ ⟨1, 11⟩ = .error .incompatibleField ∧
    FieldElement.multiply ⟨1, 7⟩ ⟨1, 11⟩ = .error .incompatibleField ∧
    FieldElement.divide ⟨1, 7⟩ ⟨1, 11⟩ = .error .incompatibleField :=
  ops_incompatible ⟨1, 7⟩ ⟨1, 11⟩ (by decide)

/-- C10: two field elements compare equal exactly when their values are
equal; the stored primes play no role. -/
theorem eq_iff_num (a b : FieldElement) : FieldElement.eq a b = true ↔ a.num = b.num := by
  simp [FieldElement.eq]

/-- Witness for C10: elements with equal value and different primes
compare equal. -/
theorem eq_iff_num_witness : FieldElement.eq ⟨1, 7⟩ ⟨1, 11⟩ = true :=
  (eq_iff_num ⟨1, 7⟩ ⟨1, 11⟩).mpr rfl

/-- C6: for every base and every negative exponent the two-argument pow
returns 0, and the three-argument pow with a nonzero modulus returns 0 as
well. -/
theorem pow_neg_exp_zero (b e m : Int) (he : e < 0) :
    integer.pow b e = 0 ∧ (m ≠ 0 → integer.powmod b e m = .ok 0) := by
  constructor
  · simp [integer.pow, he]
  · intro hm
    simp [integer.powmod, hm, he]

/-- Witness for C6 at base 5, exponent minus 3, modulus 7. -/
theorem pow_neg_exp_zero_witness :
    integer.pow 5 (-3) = 0 ∧
    ((7 : Int) ≠ 0 → integer.powmod 5 (-3) 7 = .ok 0) :=
  pow_neg_exp_zero 5 (-3) 7 (by decide)

/-- C2: dividing by a field element whose value is zero does not raise any
failure: at prime 7 the code silently returns the zero element, because
pow of 0 to the exponent 5 is 0 and the products reduce to 0. -/
theorem divide_zero_element_returns_zero :
    FieldElement.divide ⟨1, 7⟩ ⟨0, 7⟩ = .ok ⟨0, 7⟩ := by
  simp [FieldElement.divide, integer.pow, integer.powLoop, integer.mod,
    FieldElement.make]

/-- Counterexample to C1 as stated: over the prime 7 the difference of the
constructed elements 1 and 2 does not produce an element at all; the
truncating remainder is negative and construction fails with OutOfRange. -/
theorem subtract_underflow_counterexample :
    FieldElement.subtract ⟨1, 7⟩ ⟨2, 7⟩ = .error .outOfRange := rfl

/-- Counterexample to C3 as stated: in base 10 the digit sequence 9, 9
yields 91 from the code, while the claimed fold with addition yields 99. -/
theorem fromDigits_counterexample :
    integer.fromDigits [9, 9] 10 = .ok 91 ∧
    List.foldl (fun v (d : Nat) => v * 10 + (d : Int)) 0 [9, 9] = 99 ∧
    (91 : Int) ≠ 99 :=
  ⟨rfl, rfl, by decide⟩

/-! Correctness of the square-and-multiply loops. -/

theorem integer.powLoop_eq (e : Nat) : ∀ (b r : Int), integer.powLoop b e r = r * b ^ e := by
  induction e using Nat.strong_induction_on with
  | _ e ih =>
    intro b r
    rw [integer.powLoop]
    by_cases h : e = 0
    · simp [h]
    · rw [dif_neg h]
      rw [ih (e / 2) (Nat.div_lt_self (Nat.pos_of_ne_zero h) one_lt_two)]
      have key : (b * b) ^ (e / 2) * b ^ (e % 2) = b ^ e := by
        rw [← pow_two, ← pow_mul, ← pow_add]
        congr 1
        omega
      by_cases hp : e % 2 = 1
      · rw [if_pos hp, ← key, hp, pow_one]
        ring
      · have h0 : e % 2 = 0 := by omega
        rw [if_neg hp, ← key, h0, pow_zero, mul_one]

theorem integer.pow_eq_of_nonneg {e : Int} (b : Int) (he : 0 ≤ e) :
    integer.pow b e = b ^ e.toNat := by
  unfold integer.pow
  rw [if_neg (not_lt.mpr he), integer.powLoop_eq, one_mul]

/-! The engine mod is a congruence for multiplication: reducing a factor
first does not change the reduced product.  This is what makes the
reducing square-and-multiply loop agree with reducing the full power. -/

theorem integer.dvd_sub_mod (a m : Int) : m ∣ a - integer.mod a m := by
  have hdvd : m ∣ ((m.natAbs : Int) * ((a.natAbs / m.natAbs : Nat) : Int)) :=
    Dvd.dvd.mul_right (Int.dvd_natAbs.mpr dvd_rfl) _
  have hdm : ((m.natAbs : Int)) * ((a.natAbs / m.natAbs : Nat) : Int)
      + ((a.natAbs % m.natAbs : Nat) : Int) = (a.natAbs : Int) := by
    exact_mod_cast congrArg (Nat.cast (R := Int)) (Nat.div_add_mod a.natAbs m.natAbs)
  unfold integer.mod
  by_cases ha : 0 ≤ a
  · rw [if_pos ha]
    have hx : (a.natAbs : Int) = a := Int.natAbs_of_nonneg ha
    have hkey : a - ((a.natAbs % m.natAbs : Nat) : Int)
        = (m.natAbs : Int) * ((a.natAbs / m.natAbs : Nat) : Int) := by linarith
    rw [hkey]
    exact hdvd
  · rw [if_neg ha]
    have hx : (a.natAbs : Int) = -a := by omega
    have hkey : a - (-((a.natAbs % m.natAbs : Nat) : Int))
        = -((m.natAbs : Int) * ((a.natAbs / m.natAbs : Nat) : Int)) := by linarith
    rw [hkey]
    exact dvd_neg.mpr hdvd

theorem integer.mod_unique_aux {m y₁ y₂ : Int} (hd : m ∣ y₁ - y₂)
    (h1 : y₁.natAbs < m.natAbs) (h2 : y₂.natAbs < m.natAbs)
    (hs : 0 ≤ y₁ ∧ 0 ≤ y₂ ∨ y₁ ≤ 0 ∧ y₂ ≤ 0) : y₁ = y₂ := by
  have hnd : m.natAbs ∣ (y₁ - y₂).natAbs := Int.natAbs_dvd_natAbs.mpr hd
  have hlt : (y₁ - y₂).natAbs < m.natAbs := by omega
  have hz : (y₁ - y₂).natAbs = 0 := Nat.eq_zero_of_dvd_of_lt hnd hlt
  omega

theorem integer.mod_mul_mod_right (m : Int) (hm : m ≠ 0) (a b : Int) :
    integer.mod (a * integer.mod b m) m = integer.mod (a * b) m := by
  have hmpos : 0 < m.natAbs := Int.natAbs_pos.mpr hm
  refine integer.mod_unique_aux (m := m) ?_ ?_ ?_ ?_
  · have d1 := integer.dvd_sub_mod (a * integer.mod b m) m
    have d3 := integer.dvd_sub_mod b m
    have d2 := integer.dvd_sub_mod (a * b) m
    have d4 : m ∣ a * integer.mod b m - a * b := by
      have hr : a * integer.mod b m - a * b = -(a * (b - integer.mod b m)) := by ring
      rw [hr]
      exact dvd_neg.mpr (Dvd.dvd.mul_left d3 a)
    have hkey : integer.mod (a * integer.mod b m) m - integer.mod (a * b) m
        = (a * integer.mod b m - integer.mod (a * integer.mod b m) m) * (-1)
          + (a * b - integer.mod (a * b) m)
          + (a * integer.mod b m - a * b) := by ring
    rw [hkey]
    exact dvd_add (dvd_add (Dvd.dvd.mul_right d1 _) d2) d4
  · rw [integer.mod_natAbs]
    exact Nat.mod_lt _ hmpos
  · rw [integer.mod_natAbs]
    exact Nat.mod_lt _ hmpos
  · rcases le_or_lt 0 a with ha | ha <;> rcases le_or_lt 0 b with hb | hb
    · exact Or.inl ⟨integer.mod_nonneg_of_nonneg _
        (mul_nonneg ha (integer.mod_nonneg_of_nonneg _ hb)),
        integer.mod_nonneg_of_nonneg _ (mul_nonneg ha hb)⟩
    · exact Or.inr ⟨integer.mod_nonpos_of_nonpos _
        (mul_nonpos_iff.mpr (Or.inl ⟨ha, integer.mod_nonpos_of_nonpos _ hb.le⟩)),
        integer.mod_nonpos_of_nonpos _ (mul_nonpos_iff.mpr (Or.inl ⟨ha, hb.le⟩))⟩
    · exact Or.inr ⟨integer.mod_nonpos_of_nonpos _
        (mul_nonpos_iff.mpr (Or.inr ⟨ha.le, integer.mod_nonneg_of_nonneg _ hb⟩)),
        integer.mod_nonpos_of_nonpos _ (mul_nonpos_iff.mpr (Or.inr ⟨ha.le, hb⟩))⟩
    · exact Or.inl ⟨integer.mod_nonneg_of_nonneg _
        (mul_nonneg_iff.mpr (Or.inr ⟨ha.le, integer.mod_nonpos_of_nonpos _ hb.le⟩)),
        integer.mod_nonneg_of_nonneg _ (mul_nonneg_iff.mpr (Or.inr ⟨ha.le, hb.le⟩))⟩

theorem integer.mod_pow_mod (m : Int) (hm : m ≠ 0) (c : Int) :
    ∀ (k : Nat) (a : Int),
      integer.mod (a * integer.mod c m ^ k) m = integer.mod (a * c ^ k) m := by
  intro k
  induction k with
  | zero => intro a; simp
  | succ k ih =>
    intro a
    have h1 : a * integer.mod c m ^ (k + 1) = a * integer.mod c m * integer.mod c m ^ k := by
      ring
    rw [h1, ih]
    have h2 : a * integer.mod c m * c ^ k = a * c ^ k * integer.mod c m := by ring
    rw [h2, integer.mod_mul_mod_right m hm]
    congr 1
    ring

theorem integer.powModLoop_eq (m : Int) (hm : m ≠ 0) :
    ∀ (e : Nat), e ≠ 0 → ∀ (b r : Int),
      integer.powModLoop b e m r = integer.mod (r * b ^ e) m := by
  intro e
  induction e using Nat.strong_induction_on with
  | _ e ih =>
    intro he b r
    rw [integer.powModLoop, dif_neg he]
    by_cases h2 : e / 2 = 0
    · have he1 : e = 1 := by omega
      subst he1
      simp [integer.powModLoop]
    · rw [ih (e / 2) (Nat.div_lt_self (Nat.pos_of_ne_zero he) one_lt_two) h2]
      rw [integer.mod_pow_mod m hm]
      set j := e / 2 with hj
      by_cases hp : e % 2 = 1
      · rw [if_pos hp]
        have hc : integer.mod (r * b) m * (b * b) ^ j = (b * b) ^ j * integer.mod (r * b) m := by
          ring
        rw [hc, integer.mod_mul_mod_right m hm]
        congr 1
        have hee : e = 2 * j + 1 := by omega
        rw [hee]
        ring
      · rw [if_neg hp]
        congr 1
        have hee : e = 2 * j := by omega
        rw [hee]
        ring

/-- Counterexample to C5 as stated: with modulus 1 and exponent 0 the
three-argument pow returns 1, but any base to the exponent 0 reduced
modulo 1 is 0. -/
theorem powmod_identity_counterexample :
    integer.powmod 2 0 1 = .ok 1 ∧ (2 : Int) ^ (0 : Nat) % 1 = 0 ∧ (1 : Int) ≠ 0 :=
  ⟨by simp [integer.powmod, integer.powModLoop], by decide, by decide⟩

theorem int_prime_two_le {p : Int} (hp : Prime p) (h0 : 0 < p) : 2 ≤ p := by
  have h := Int.prime_iff_natAbs_prime.mp hp
  have h2 := h.two_le
  omega

/-- C5 amended: the three-argument pow fails with DomainError exactly when
the modulus is zero; for a nonzero modulus and a nonnegative exponent it
returns 1 when the exponent is zero (the initial result, never reduced)
and otherwise the power of the base reduced by the engine mod. -/
theorem powmod_spec_amended (b e m : Int) :
    (integer.powmod b e m = .error .domainError ↔ m = 0) ∧
    (m ≠ 0 → 0 ≤ e →
      integer.powmod b e m = .ok (if e = 0 then 1 else integer.mod (b ^ e.toNat) m)) := by
  constructor
  · unfold integer.powmod
    by_cases hm : m = 0
    · rw [if_pos hm]
      exact iff_of_true rfl hm
    · rw [if_neg hm]
      refine iff_of_false ?_ hm
      by_cases he : e < 0
      · rw [if_pos he]
        simp
      · rw [if_neg he]
        simp
  · intro hm he
    unfold integer.powmod
    rw [if_neg hm, if_neg (not_lt.mpr he)]
    by_cases h0 : e = 0
    · subst h0
      simp [integer.powModLoop]
    · rw [if_neg h0]
      rw [integer.powModLoop_eq m hm e.toNat (by omega), one_mul]

/-- Witness for the amended C5 at base 3, exponent 4, modulus 5. -/
theorem powmod_spec_amended_witness :
    integer.powmod 3 4 5
      = .ok (if (4 : Int) = 0 then 1 else integer.mod ((3 : Int) ^ (4 : Int).toNat) 5) :=
  (powmod_spec_amended 3 4 5).2 (by decide) (by decide)

theorem FieldElement.divide_eval {p : Int} (a b : FieldElement) (hp2 : 2 ≤ p)
    (hap : a.prime = p) (hbp : b.prime = p) (ha0 : 0 ≤ a.num) (hb0 : 0 ≤ b.num) :
    a.divide b = .ok ⟨a.num * (b.num ^ (p - 2).toNat % p) % p, p⟩ := by
  have hp1 : 0 < p := by omega
  unfold FieldElement.divide
  rw [hap, hbp, if_neg (by simp)]
  rw [integer.pow_eq_of_nonneg _ (by omega : (0 : Int) ≤ p - 2)]
  rw [integer.mod_eq_emod (pow_nonneg hb0 _) hp1]
  rw [integer.mod_eq_emod (mul_nonneg ha0 (Int.emod_nonneg _ (by omega))) hp1]
  exact FieldElement.make_ok (Int.emod_nonneg _ (by omega)) (Int.emod_lt_of_pos _ hp1)

/-- C4: for constructed field elements over the same prime p, division
returns the element over p whose value is the product of the left value
with the Fermat inverse of the right value, namely the right value to the
exponent p minus 2 reduced modulo p, all reduced modulo p. -/
theorem divide_formula (p : Int) (a b : FieldElement) (hp : Prime p)
    (hap : a.prime = p) (hbp : b.prime = p)
    (ha0 : 0 ≤ a.num) (ha1 : a.num < p) (hb0 : 0 ≤ b.num) (hb1 : b.num < p) :
    a.divide b = .ok ⟨a.num * (b.num ^ (p - 2).toNat % p) % p, p⟩ :=
  FieldElement.divide_eval a b (int_prime_two_le hp (lt_of_le_of_lt ha0 ha1)) hap hbp ha0 hb0

/-- Witness for C4: 7 divided by 12 over the prime 13. -/
theorem divide_formula_witness :
    FieldElement.divide ⟨7, 13⟩ ⟨12, 13⟩
      = .ok ⟨7 * ((12 : Int) ^ ((13 : Int) - 2).toNat % 13) % 13, 13⟩ :=
  divide_formula 13 ⟨7, 13⟩ ⟨12, 13⟩ (Int.prime_iff_natAbs_prime.mpr (by norm_num))
    rfl rfl (by decide) (by decide) (by decide) (by decide)

/-- C7: for every prime p and every constructed element over p with
nonzero value, raising to the exponent p minus 1 yields the element 1
over p: the exponent is first reduced modulo p minus 1 to 0, and the
power of the value to 0 is 1. -/
theorem power_fermat_round_trip (p : Int) (a : FieldElement) (hp : Prime p)
    (hap : a.prime = p) (ha0 : 0 ≤ a.num) (ha1 : a.num < p) (hnz : a.num ≠ 0) :
    a.power (p - 1) = .ok ⟨1, p⟩ := by
  have hp1 : 0 < p := lt_of_le_of_lt ha0 ha1
  have hp2 : 2 ≤ p := int_prime_two_le hp hp1
  unfold FieldElement.power
  rw [hap]
  have hm0 : integer.mod (p - 1) (p - 1) = 0 := by
    rw [integer.mod_eq_emod (by omega) (by omega)]
    exact Int.emod_self
  rw [hm0, integer.pow_eq_of_nonneg _ le_rfl, Int.toNat_zero, pow_zero]
  rw [integer.mod_eq_emod (by omega) hp1, Int.emod_eq_of_lt (by omega) (by omega)]
  exact FieldElement.make_ok (by omega) (by omega)

/-- Witness for C7: the element 3 over the prime 7 raised to 6. -/
theorem power_fermat_round_trip_witness :
    FieldElement.power ⟨3, 7⟩ ((7 : Int) - 1) = .ok ⟨1, 7⟩ :=
  power_fermat_round_trip 7 ⟨3, 7⟩ (Int.prime_iff_natAbs_prime.mpr (by norm_num))
    rfl (by decide) (by decide) (by decide)

/-- C1 amended: over a prime p, for constructed elements a and b, the sum,
the product and the quotient (the latter whenever the divisor value is
nonzero, and in fact always) are elements over p with value in the range
from 0 inclusive to p exclusive; the difference is such an element exactly
when the left value is at least the right value, and otherwise the
truncating remainder is negative and subtraction fails with OutOfRange. -/
theorem field_closure_amended (p : Int) (a b : FieldElement) (hp : Prime p)
    (hap : a.prime = p) (hbp : b.prime = p)
    (ha0 : 0 ≤ a.num) (ha1 : a.num < p) (hb0 : 0 ≤ b.num) (hb1 : b.num < p) :
    (∃ r, a.add b = .ok r ∧ r.prime = p ∧ 0 ≤ r.num ∧ r.num < p) ∧
    (∃ r, a.multiply b = .ok r ∧ r.prime = p ∧ 0 ≤ r.num ∧ r.num < p) ∧
    (b.num ≠ 0 → ∃ r, a.divide b = .ok r ∧ r.prime = p ∧ 0 ≤ r.num ∧ r.num < p) ∧
    (b.num ≤ a.num → ∃ r, a.subtract b = .ok r ∧ r.prime = p ∧ 0 ≤ r.num ∧ r.num < p) ∧
    (a.num < b.num → a.subtract b = .error .outOfRange) := by
  have hp1 : 0 < p := lt_of_le_of_lt ha0 ha1
  have hp2 : 2 ≤ p := int_prime_two_le hp hp1
  refine ⟨?_, ?_, ?_, ?_, ?_⟩
  · obtain ⟨h1, h2⟩ := integer.mod_mem (a := a.num + b.num) (m := p) (by omega) hp1
    refine ⟨⟨integer.mod (a.num + b.num) p, p⟩, ?_, rfl, h1, h2⟩
    unfold FieldElement.add
    rw [hap, hbp, if_neg (by simp)]
    exact FieldElement.make_ok h1 h2
  · obtain ⟨h1, h2⟩ := integer.mod_mem (a := a.num * b.num) (m := p) (mul_nonneg ha0 hb0) hp1
    refine ⟨⟨integer.mod (a.num * b.num) p, p⟩, ?_, rfl, h1, h2⟩
    unfold FieldElement.multiply
    rw [hap, hbp, if_neg (by simp)]
    exact FieldElement.make_ok h1 h2
  · intro _
    exact ⟨⟨a.num * (b.num ^ (p - 2).toNat % p) % p, p⟩,
      FieldElement.divide_eval a b hp2 hap hbp ha0 hb0, rfl,
      Int.emod_nonneg _ (by omega), Int.emod_lt_of_pos _ hp1⟩
  · intro hba
    obtain ⟨h1, h2⟩ := integer.mod_mem (a := a.num - b.num) (m := p) (by omega) hp1
    refine ⟨⟨integer.mod (a.num - b.num) p, p⟩, ?_, rfl, h1, h2⟩
    unfold FieldElement.subtract
    rw [hap, hbp, if_neg (by simp)]
    exact FieldElement.make_ok h1 h2
  · intro hab
    unfold FieldElement.subtract
    rw [hap, hbp, if_neg (by simp)]
    have hneg : integer.mod (a.num - b.num) p < 0 := by
      unfold integer.mod
      rw [if_neg (by omega)]
      have hlt : (a.num - b.num).natAbs % p.natAbs = (a.num - b.num).natAbs :=
        Nat.mod_eq_of_lt (by omega)
      rw [hlt]
      omega
    unfold FieldElement.make
    rw [if_pos (Or.inr hneg)]

/-- Witness for the amended C1 at the elements 3 and 2 over the prime 7. -/
theorem field_closure_amended_witness :
    ∃ r, FieldElement.add ⟨3, 7⟩ ⟨2, 7⟩ = .ok r ∧ r.prime = 7 ∧ 0 ≤ r.num ∧ r.num < 7 :=
  (field_closure_amended 7 ⟨3, 7⟩ ⟨2, 7⟩ (Int.prime_iff_natAbs_prime.mpr (by norm_num))
    rfl rfl (by decide) (by decide) (by decide) (by decide)).1

/-! The bitwise or of a shifted value with a small digit is addition. -/

theorem nat_or_of_lt_two_pow (v d k : Nat) (hd : d < 2 ^ k) :
    (v * 2 ^ k) ||| d = v * 2 ^ k + d := by
  apply Nat.eq_of_testBit_eq
  intro i
  rw [Nat.testBit_lor]
  rcases Nat.lt_or_ge i k with hik | hik
  · have h1 : (v * 2 ^ k).testBit i = false := by
      rw [← Nat.shiftLeft_eq]
      simp [Nat.testBit_shiftLeft, Nat.not_le.mpr hik]
    rw [h1, Bool.false_or]
    rw [Nat.testBit_to_div_mod, Nat.testBit_to_div_mod]
    have hv : v * 2 ^ k = v * 2 ^ (k - i - 1) * 2 * 2 ^ i := by
      have hkk : k = k - i - 1 + 1 + i := by omega
      conv_lhs => rw [hkk]
      ring
    rw [hv, Nat.add_comm, Nat.add_mul_div_right _ _ (Nat.two_pow_pos i),
      Nat.add_mul_mod_self_right]
  · have h2 : d.testBit i = false :=
      Nat.testBit_lt_two_pow (lt_of_lt_of_le hd (Nat.pow_le_pow_right (by norm_num) hik))
    rw [h2, Bool.or_false]
    rw [Nat.testBit_to_div_mod, Nat.testBit_to_div_mod]
    have hi : (2 : Nat) ^ i = 2 ^ k * 2 ^ (i - k) := by
      rw [← pow_add]
      congr 1
      omega
    have hq : (v * 2 ^ k + d) / 2 ^ k = v := by
      conv_lhs => rw [Nat.mul_comm v (2 ^ k)]
      rw [Nat.mul_add_div (Nat.two_pow_pos k), Nat.div_eq_of_lt hd]
      omega
    have hq2 : v * 2 ^ k / 2 ^ k = v := Nat.mul_div_cancel _ (Nat.two_pow_pos k)
    rw [hi, ← Nat.div_div_eq_div_mul, ← Nat.div_div_eq_div_mul, hq, hq2]

theorem fromDigits_fold_or_eq_add (k : Nat) (digits : List Nat) :
    ∀ acc : Int, 0 ≤ acc → (∀ d ∈ digits, d < 2 ^ k) →
      digits.foldl (fun acc (d : Nat) => integer.or (acc * 2 ^ k) (d : Int)) acc
        = digits.foldl (fun v (d : Nat) => v * 2 ^ k + (d : Int)) acc := by
  induction digits with
  | nil =>
    intro acc _ _
    rfl
  | cons d ds ih =>
    intro acc hacc hd
    simp only [List.foldl_cons]
    have hstep : integer.or (acc * 2 ^ k) (d : Int) = acc * 2 ^ k + d := by
      obtain ⟨n, rfl⟩ := Int.eq_ofNat_of_zero_le hacc
      unfold integer.or
      have h1 : ((n : Int) * 2 ^ k) = ((n * 2 ^ k : Nat) : Int) := by
        push_cast
        ring
      rw [h1, Int.toNat_natCast, Int.toNat_natCast]
      rw [nat_or_of_lt_two_pow n d k (hd d (List.mem_cons_self d ds))]
      push_cast
      ring
    rw [hstep]
    exact ih (acc * 2 ^ k + d)
      (add_nonneg (mul_nonneg hacc (by positivity)) (Int.natCast_nonneg d))
      (fun x hx => hd x (List.mem_cons_of_mem _ hx))

/-- C3 amended: the iterator constructor throws DomainError for every base
below 2; it folds each digit with the bitwise or of the shifted value,
which agrees with the claimed fold taking value to value times base plus
digit whenever the base is a power of two and every digit is below the
base (the counterexample shows the two folds differ at base 10). -/
theorem fromDigits_amended (k : Nat) (digits : List Nat) (base : Int) (hk : 1 ≤ k)
    (hbase : base = 2 ^ k) (hd : ∀ d ∈ digits, d < 2 ^ k) :
    integer.fromDigits digits base
      = .ok (digits.foldl (fun v (d : Nat) => v * base + (d : Int)) 0) ∧
    (∀ b : Int, b < 2 → integer.fromDigits digits b = .error .domainError) := by
  constructor
  · subst hbase
    unfold integer.fromDigits
    have h2k : (2 : Int) ≤ 2 ^ k := by
      calc (2 : Int) = 2 ^ 1 := (pow_one 2).symm
        _ ≤ 2 ^ k := pow_le_pow_right₀ (by norm_num) hk
    rw [if_neg (by omega)]
    rw [fromDigits_fold_or_eq_add k digits 0 le_rfl hd]
  · intro b hb
    unfold integer.fromDigits
    rw [if_pos hb]

/-- Witness for the amended C3: the digits 9, 9 in base 16. -/
theorem fromDigits_amended_witness :
    integer.fromDigits [9, 9] 16
      = .ok (List.foldl (fun v (d : Nat) => v * 16 + (d : Int)) 0 [9, 9]) ∧
    (∀ b : Int, b < 2 → integer.fromDigits [9, 9] b = .error .domainError) :=
  fromDigits_amended 4 [9, 9] 16 (by decide) (by decide) (by decide)

end Ecc
